import Mathlib

/-!
Verification development for the SAOL dictionary-processing pipeline
(`clean_saol_json.go`, the flattened-lemma pipeline variant, and the
category-extraction stage).

The Go code is shallowly embedded: HTML parsing is an external capability
(per the design, the core is polymorphic over "produce a traversable node
tree from text"), so documents are modelled at the node-tree level the code
actually queries: a table is a list of rows, a row carries the texts of its
`th.ordformth` header markers (each entry the text of that `th`'s `i`
descendants) and the texts of its `td` cells.  Go string primitives
(`strings.TrimSpace`, `strings.Fields`, `strings.SplitN`,
`strings.LastIndex`-based splitting) are embedded as structurally recursive
functions over the character list of a `String`.
-/

namespace Saol

/-- `strings.TrimSpace`: drop whitespace from both ends. -/
def goTrimSpace (s : String) : String :=
  String.mk (((s.data.dropWhile Char.isWhitespace).reverse.dropWhile Char.isWhitespace).reverse)

/-- `strings.Fields`: split around runs of whitespace, keeping only nonempty tokens. -/
def goFields (s : String) : List String :=
  ((s.data.splitOnP Char.isWhitespace).filter (fun t => t ≠ [])).map String.mk

/-- `strings.SplitN(s, sep, 2)[0]` for a one-character separator:
the prefix of `s` before the first occurrence of `sep` (all of `s` if absent). -/
def goBeforeFirst (sep : Char) (s : String) : String :=
  String.mk ((s.data.splitOn sep).headD s.data)

/-- The `strings.LastIndex(s, "-")` idiom used by the save functions:
`none` when `s` has no dash (`LastIndex < 0`), otherwise
`some (s[:last], s[last+1:])`, the parts before and after the last dash. -/
def goSplitLastDash (s : String) : Option (String × String) :=
  match s.data.splitOn '-' with
  | [] => none
  | [_] => none
  | ps => some (String.mk (List.intercalate ['-'] ps.dropLast), String.mk (ps.getLastD []))

/-- One `tr` of a `.tabell` node tree, at the granularity the extractors
query it: `ths` has one entry per `th.ordformth` child (the text of its `i`
descendants), `tds` one entry per `td` child (its text content). -/
structure Row where
  ths : List String
  tds : List String
deriving DecidableEq

/-- Loop body of `parseSubstantiv`'s `.tabell tr` walk.  State is
`(currentCase, accumulated entries)`. -/
def subStep : String × List String → Row → String × List String
  | (cur, acc), r =>
    if r.ths.length = 1 then (goTrimSpace (r.ths.headD ""), acc)
    else if r.tds.length = 2 then
      let nounText := goTrimSpace (r.tds.headD "")
      let ledText := goTrimSpace (r.tds.getD 1 "")
      let ledWord := (goFields ledText).headD ""
      (cur, acc ++ [nounText ++ "-" ++ ledWord ++ "-" ++ cur])
    else (cur, acc)

/-- `parseSubstantiv`: walk the `.tabell tr` rows; a row with exactly one
`th.ordformth` sets the current case; a row with exactly two `td`s yields
`"<noun text>-<first field of second cell>-<current case>"`; other rows are
skipped. -/
def parseSubstantiv (rows : List Row) : List String :=
  (rows.foldl subStep ("", [])).2

/-- Loop body of `parseVerbForms`'s `.tabell tr` walk.  State is
`(currentSection, accumulated entries)`. -/
def verbStep : String × List String → Row → String × List String
  | (cur, acc), r =>
    if r.ths.length = 1 then (goTrimSpace (r.ths.headD ""), acc)
    else if r.tds.length = 0 then (cur, acc)
    else
      let formText := goTrimSpace (r.tds.headD "")
      let tenseVoice := if r.tds.length > 1 then goTrimSpace (r.tds.getD 1 "") else ""
      let entry := (if tenseVoice ≠ "" then formText ++ "-" ++ tenseVoice else formText)
        ++ "-" ++ cur
      (cur, acc ++ [entry])

/-- `parseVerbForms`: walk the `.tabell tr` rows; a header row sets the
current section; any row with at least one `td` yields
`"<form>[-<tense voice>]-<current section>"`. -/
def parseVerbForms (rows : List Row) : List String :=
  (rows.foldl verbStep ("", [])).2

/-- Loop body of `parseAdjektiv`'s `.tabell tr` walk.  State is
`(currentDegree, accumulated entries)`. -/
def adjStep : String × List String → Row → String × List String
  | (cur, acc), r =>
    if r.ths.length = 1 then (goTrimSpace (r.ths.headD ""), acc)
    else if r.tds.length = 1 then
      let raw := goTrimSpace (r.tds.headD "")
      let form := goTrimSpace (goBeforeFirst '+' raw)
      (cur, acc ++ [form ++ "-" ++ cur])
    else (cur, acc)

/-- `parseAdjektiv`: walk the `.tabell tr` rows; a header row sets the
current degree; a row with exactly one `td` yields
`"<form before first plus>-<current degree>"`; other rows are skipped. -/
def parseAdjektiv (rows : List Row) : List String :=
  (rows.foldl adjStep ("", [])).2

/-- One record of a category-output file:
`{class: string, forms: map from label to ordered values}` (the Go `map` is
embedded as an association list whose keys are the fixed label set). -/
structure CatRecord where
  cls : String
  forms : List (String × List String)
deriving DecidableEq

/-- The fixed verb section labels `saveVerbsJSON` initializes `Forms` with. -/
def verbFormKeys : List String :=
  ["Finita former", "Infinita former", "Presens particip", "Perfekt particip"]

/-- The fixed adjective degree labels `saveAdjectivesJSON` initializes `Forms` with. -/
def adjFormKeys : List String := ["Positiv", "Komparativ", "Superlativ"]

/-- The `Forms` map freshly initialized with the given keys, each empty. -/
def emptyForms (keys : List String) : List (String × List String) :=
  keys.map (fun k => (k, []))

/-- `entry.Forms[section] = append(entry.Forms[section], fv)` guarded by the
`if _, ok := entry.Forms[section]; ok` check: append only under an existing key. -/
def updForms (forms : List (String × List String)) (sec fv : String) :
    List (String × List String) :=
  forms.map (fun p => if p.1 = sec then (p.1, p.2 ++ [fv]) else p)

/-- Fold of one raw tagged-record list into a `Forms` map: split each tagged
string at its last dash into value and section, skip dashless strings, and
bucket the value under the section when the section is a known key. -/
def foldTagged (init : List (String × List String)) (raw : List String) :
    List (String × List String) :=
  raw.foldl (fun fs tagged =>
    match goSplitLastDash tagged with
    | none => fs
    | some (fv, sec) => updForms fs sec fv) init

/-- The verb record `saveVerbsJSON` builds from one `parseVerbForms` output. -/
def buildVerbEntry (raw : List String) : CatRecord :=
  { cls := "verb", forms := foldTagged (emptyForms verbFormKeys) raw }

/-- `saveVerbsJSON`: the record list marshalled into `verbs.json`. -/
def saveVerbsJSON (all : List (List String)) : List CatRecord :=
  all.map buildVerbEntry

/-- The adjective record `saveAdjectivesJSON` builds from one
`parseAdjektiv` output. -/
def buildAdjEntry (raw : List String) : CatRecord :=
  { cls := "adjektiv", forms := foldTagged (emptyForms adjFormKeys) raw }

/-- `saveAdjectivesJSON`: the record list marshalled into `adjectives.json`. -/
def saveAdjectivesJSON (adjs : List (List String)) : List CatRecord :=
  adjs.map buildAdjEntry

/-- One parsed lemma document, at the granularity the category stage queries
it: `ordklass` holds the texts of the `.ordklass` matches in document order,
`rows` the `.tabell tr` rows. -/
structure LemmaDoc where
  ordklass : List String
  rows : List Row
deriving DecidableEq

/-- One entry of the `flattened_lemmas.json` map: its key, its `html` field,
and the node tree goquery's (deterministic) parse of that `html` yields
(`none` when parsing fails). -/
structure LemmaEntry where
  key : String
  html : String
  doc : Option LemmaDoc
deriving DecidableEq

/-- The `allowedOrdklass` set of `FilterLemmasByOrdklass`. -/
def allowedOrdklass (s : String) : Bool :=
  s = "substantiv" || s = "verb" || s = "adjektiv" || s = "adverb"

/-- `FilterLemmasByOrdklass`, as a function of the entries in Go-map
iteration order: skip entries whose HTML fails to parse; keep the `html` of
entries whose first `.ordklass` match has trimmed text in the allowed set. -/
def FilterLemmasByOrdklass (entries : List LemmaEntry) : List String :=
  entries.filterMap (fun e =>
    match e.doc with
    | none => none
    | some d => if allowedOrdklass (goTrimSpace (d.ordklass.headD "")) then some e.html else none)

/-- The switch in the category stage's `main` loop: dispatch each parsed
document on the concatenated text of all its `.ordklass` matches
(`doc.Find(".ordklass").Text()`, untrimmed), accumulating
`(nouns, verbs, adjectives)`; any other class (including `adverb`) falls
through without being recorded. -/
def categorize (docs : List LemmaDoc) :
    List (List String) × List (List String) × List (List String) :=
  docs.foldl (fun acc d =>
    let k := String.join d.ordklass
    if k = "substantiv" then (acc.1 ++ [parseSubstantiv d.rows], acc.2.1, acc.2.2)
    else if k = "verb" then (acc.1, acc.2.1 ++ [parseVerbForms d.rows], acc.2.2)
    else if k = "adjektiv" then (acc.1, acc.2.1, acc.2.2 ++ [parseAdjektiv d.rows])
    else acc) ([], [], [])

/-- The files the category stage's `main` writes, with their record lists:
`saveAdjectivesJSON(adjectives, "adjectives.json")` then
`saveVerbsJSON(verbs, "verbs.json")`.  Nouns are parsed but never written;
no other file is produced. -/
def categoryStage (docs : List LemmaDoc) : List (String × List CatRecord) :=
  [("adjectives.json", saveAdjectivesJSON (categorize docs).2.2),
   ("verbs.json", saveVerbsJSON (categorize docs).2.1)]

/-! ## The flattened-lemma pipeline (collector, reconciler, assembler) -/

/-- A successful worker result of the flattened-lemma pipeline variant:
original index plus the extracted lemma HTMLs. -/
structure Res0 where
  index : Nat
  lemmas : List String
deriving DecidableEq

/-- A result as it arrives on the results channel: success or error. -/
inductive WResult
  | ok (r : Res0)
  | err (index : Nat)
deriving DecidableEq

/-- The collector loop: drain the results in completion order, log and drop
errored results, keep the successes in arrival order. -/
def collect (rs : List WResult) : List Res0 :=
  rs.filterMap (fun r => match r with | .ok v => some v | .err _ => none)

/-- `sort.Slice(collectedResults, less on Index)`: sort the buffer by
original index (indices are pairwise distinct, so the sorted permutation is
unique and any correct sort models `sort.Slice`). -/
def reconcile (rs : List Res0) : List Res0 :=
  rs.insertionSort (fun a b => a.index ≤ b.index)

/-- One entry of the final `flattened_lemmas.json` map. -/
structure LemmaOut where
  key : Nat
  html : String
  familyID : Nat
deriving DecidableEq

/-- The inner assembler loop for one reconciled result: its lemmas become
successive output entries with keys `k, k+1, ...`, all carrying the same
`familyID`. -/
def entriesFor (k fid : Nat) : List String → List LemmaOut
  | [] => []
  | h :: t => ⟨k, h, fid⟩ :: entriesFor (k + 1) fid t

/-- The assembler fold: walk the reconciled results, assign
`familyID = index + 1`, and flatten each result's lemmas under a single
global `outputKey` counter starting at `k`. -/
def assembleFrom (k : Nat) : List Res0 → List LemmaOut
  | [] => []
  | r :: rest => entriesFor k (r.index + 1) r.lemmas ++ assembleFrom (k + r.lemmas.length) rest

/-- The final output structure of the flattened-lemma pipeline, as a
function of the results in completion order: collect, sort by index,
assemble with `outputKey` starting at 1. -/
def finalOutput (rs : List WResult) : List LemmaOut :=
  assembleFrom 1 (reconcile (collect rs))

/-! ## The dispatcher loops -/

/-- One element of the input JSON array, classified by how
`json.Decoder.Decode` treats it:
`ok e` decodes into an `InputEntry`; `typeErr` is syntactically valid JSON
that fails to unmarshal (`Decode` returns an error *after* the scanner has
consumed the value); `synErr` is syntactically invalid (`Decode` stores the
error, so every later `Decode` fails and `More()` reports false). -/
inductive SrcElem
  | ok (e : String)
  | typeErr
  | synErr
deriving DecidableEq

/-- The dispatch loop of `clean_saol_json.go`, from loop counter `i`:
decode failure logs, advances the counter and continues (the malformed
value was already consumed); a syntax error poisons the decoder, so
`decoder.More()` ends the loop there. -/
def cleanDispatch (i : Nat) : List SrcElem → List (Nat × String)
  | [] => []
  | .ok e :: rest => (i, e) :: cleanDispatch (i + 1) rest
  | .typeErr :: rest => cleanDispatch (i + 1) rest
  | .synErr :: _ => []

/-- The dispatch loop of the flattened-lemma variant, from loop counter `i`.
After a failed `Decode` it additionally runs `_ = decoder.Decode(&raw)`:
for a type error the failed `Decode` has already consumed the malformed
value, so the raw decode consumes the *next* element (or poisons the
decoder when that element is itself syntactically invalid); for a syntax
error the decoder is already poisoned and the loop ends. -/
def part000Dispatch (i : Nat) : List SrcElem → List (Nat × String)
  | [] => []
  | .ok e :: rest => (i, e) :: part000Dispatch (i + 1) rest
  | .typeErr :: rest =>
      match rest with
      | [] => []
      | .synErr :: _ => []
      | _ :: rest' => part000Dispatch (i + 1) rest'
  | .synErr :: _ => []

/-! ## The worker loops -/

/-- One `div.article` region of a parsed document: `innerHTML` is the
result of `.Html()` on the region (`none` models a rendering error), and
`lemmaHTMLs` the results of `.Html()` on each `div.lemma` descendant. -/
structure Article where
  innerHTML : Option String
  lemmaHTMLs : List (Option String)
deriving DecidableEq

/-- What `goquery.NewDocumentFromReader` yields on a job's HTML: a parse
failure, or a node tree with its `div.article` matches in document order. -/
inductive Parsed
  | fail
  | doc (articles : List Article)
deriving DecidableEq

/-- A dispatched job: original index plus the (deterministic) parse of its
HTML payload. -/
structure JobC where
  index : Nat
  parsed : Parsed
deriving DecidableEq

/-- A result of the `clean_saol_json.go` worker: success with the cleaned
HTML, or an error. -/
inductive CleanResult
  | ok (index : Nat) (cleanedHTML : String)
  | err (index : Nat)
deriving DecidableEq

/-- A result of the flattened-lemma worker: success with the lemma HTML
list, or an error. -/
inductive FlatResult
  | ok (index : Nat) (lemmaHTMLs : List String)
  | err (index : Nat)
deriving DecidableEq

/-- The body of the `clean_saol_json.go` worker loop for one job: parse
failure emits an error result; no `div.article` match emits a success with
empty `CleanedHTML`; a failing `.Html()` on the first match emits an error;
otherwise the inner HTML is emitted as a success. -/
def workerClean (j : JobC) : CleanResult :=
  match j.parsed with
  | .fail => .err j.index
  | .doc [] => .ok j.index ""
  | .doc (a :: _) =>
      match a.innerHTML with
      | none => .err j.index
      | some h => .ok j.index h

/-- The body of the flattened-lemma worker loop for one job: parse failure
emits an error result; no `div.article` match emits a success with an empty
lemma list; otherwise each `div.lemma` of the first match contributes its
HTML, lemmas whose `.Html()` fails being logged and skipped. -/
def workerFlat (j : JobC) : FlatResult :=
  match j.parsed with
  | .fail => .err j.index
  | .doc [] => .ok j.index []
  | .doc (a :: _) => .ok j.index (a.lemmaHTMLs.filterMap id)

/-- A worker's whole loop over the jobs it consumes: each job's branch
sends exactly one result, so the emitted stream is the per-job map. -/
def workerRunClean (jobs : List JobC) : List CleanResult :=
  jobs.map workerClean

/-- The flattened-lemma worker's loop over the jobs it consumes. -/
def workerRunFlat (jobs : List JobC) : List FlatResult :=
  jobs.map workerFlat

/-- The index a `CleanResult` carries. -/
def cleanResIndex : CleanResult → Nat
  | .ok i _ => i
  | .err i => i

/-- The index a `FlatResult` carries. -/
def flatResIndex : FlatResult → Nat
  | .ok i _ => i
  | .err i => i

/-- The current case after `parseSubstantiv` has walked the given rows. -/
def subCaseAfter (rows : List Row) : String := (rows.foldl subStep ("", [])).1

/-- The current section after `parseVerbForms` has walked the given rows. -/
def verbSectionAfter (rows : List Row) : String := (rows.foldl verbStep ("", [])).1

/-- The current degree after `parseAdjektiv` has walked the given rows. -/
def adjDegreeAfter (rows : List Row) : String := (rows.foldl adjStep ("", [])).1

instance : DecidableRel (fun a b : Res0 => a.index ≤ b.index) :=
  fun a b => Nat.decLe a.index b.index

instance : IsTotal Res0 (fun a b => a.index ≤ b.index) :=
  ⟨fun a b => Nat.le_total a.index b.index⟩

instance : IsTrans Res0 (fun a b => a.index ≤ b.index) :=
  ⟨fun _ _ _ h h' => Nat.le_trans h h'⟩

instance : IsAntisymm Res0 (fun a b => a.index < b.index) :=
  ⟨fun _ _ h h' => absurd (Nat.lt_trans h h') (Nat.lt_irrefl _)⟩

/-- The verb table of the literal C5 scenario: header "Presens", two value
rows, header "Preteritum", one value row. -/
def presRows : List Row :=
  [⟨["Presens"], []⟩, ⟨[], ["a"]⟩, ⟨[], ["b"]⟩, ⟨["Preteritum"], []⟩, ⟨[], ["c"]⟩]

/-- The same table shape with header labels from the recognized verb
section set. -/
def finitaRows : List Row :=
  [⟨["Finita former"], []⟩, ⟨[], ["a"]⟩, ⟨[], ["b"]⟩, ⟨["Infinita former"], []⟩, ⟨[], ["c"]⟩]

/-- A one-verb-document input for the category stage. -/
def c9Docs : List LemmaDoc := [⟨["verb"], []⟩]

/-- The verbs file the category stage writes for `c9Docs`. -/
def c9File : String × List CatRecord :=
  ("verbs.json", saveVerbsJSON (categorize c9Docs).2.1)

/-- Two successful results, arriving out of original order. -/
def c1rs : List WResult := [WResult.ok ⟨1, ["b"]⟩, WResult.ok ⟨0, ["a", "c"]⟩]

/-- The same two results in the opposite completion order. -/
def c1rs' : List WResult := [WResult.ok ⟨0, ["a", "c"]⟩, WResult.ok ⟨1, ["b"]⟩]

/-! ## Theorems -/

-- helper lemmas
theorem cleanResIndex_workerClean (j : JobC) : cleanResIndex (workerClean j) = j.index := by
  rcases j with ⟨i, p⟩
  cases p with
  | fail => rfl
  | doc arts =>
    cases arts with
    | nil => rfl
    | cons a t =>
      cases h : a.innerHTML <;> simp [workerClean, cleanResIndex, h]

theorem flatResIndex_workerFlat (j : JobC) : flatResIndex (workerFlat j) = j.index := by
  rcases j with ⟨i, p⟩
  cases p with
  | fail => rfl
  | doc arts => cases arts with
    | nil => rfl
    | cons a t => rfl

/-- C7: a job whose document parses but has no `div.article` region yields a
success result with an empty payload in both pipeline variants. -/
theorem c7_empty_selector_success (i : Nat) :
    workerClean ⟨i, Parsed.doc []⟩ = CleanResult.ok i "" ∧
    workerFlat ⟨i, Parsed.doc []⟩ = FlatResult.ok i [] :=
  ⟨rfl, rfl⟩

/-- C8: in both pipeline variants a worker emits exactly one result per
consumed job — the result stream has the same length as the job stream and
the i-th result carries the i-th job's index. -/
theorem c8_one_result_per_job (jobs : List JobC) :
    (workerRunClean jobs).length = jobs.length ∧
    (workerRunFlat jobs).length = jobs.length ∧
    (workerRunClean jobs).map cleanResIndex = jobs.map (fun j => j.index) ∧
    (workerRunFlat jobs).map flatResIndex = jobs.map (fun j => j.index) := by
  refine ⟨by simp [workerRunClean], by simp [workerRunFlat], ?_, ?_⟩
  · simp only [workerRunClean, List.map_map]
    exact List.map_congr_left (fun j _ => cleanResIndex_workerClean j)
  · simp only [workerRunFlat, List.map_map]
    exact List.map_congr_left (fun j _ => flatResIndex_workerFlat j)

/-- C3 (code bug): on the input `[<type-error value>, ok "x", ok "y"]` the
flattened-lemma dispatcher's extra raw decode silently consumes `"x"` and
dispatches `"y"` with index 1 instead of 2, while the `clean_saol_json.go`
dispatcher keeps the indices aligned with the source positions. -/
theorem c3_part000_misalignment :
    part000Dispatch 0 [SrcElem.typeErr, SrcElem.ok "x", SrcElem.ok "y"] = [(1, "y")] ∧
    cleanDispatch 0 [SrcElem.typeErr, SrcElem.ok "x", SrcElem.ok "y"] = [(1, "x"), (2, "y")] := by
  decide

/-- C2 (code bug): `FilterLemmasByOrdklass` ranges over a Go map, whose
iteration order is unspecified; two iteration orders of the same two-entry
map yield the matching HTMLs in different orders, so the category stage's
output order is not a function of the input alone. -/
theorem c2_iteration_order_dependent :
    List.Perm
      [(⟨"1", "A", some ⟨["verb"], []⟩⟩ : LemmaEntry), ⟨"2", "B", some ⟨["verb"], []⟩⟩]
      [⟨"2", "B", some ⟨["verb"], []⟩⟩, ⟨"1", "A", some ⟨["verb"], []⟩⟩] ∧
    FilterLemmasByOrdklass
      [⟨"1", "A", some ⟨["verb"], []⟩⟩, ⟨"2", "B", some ⟨["verb"], []⟩⟩] = ["A", "B"] ∧
    FilterLemmasByOrdklass
      [⟨"2", "B", some ⟨["verb"], []⟩⟩, ⟨"1", "A", some ⟨["verb"], []⟩⟩] = ["B", "A"] ∧
    (["A", "B"] : List String) ≠ ["B", "A"] := by
  refine ⟨List.Perm.swap _ _ _, by decide, by decide, by decide⟩


/-- C7 witness: the empty-selector behavior at a concrete job. -/
theorem c7_witness :
    workerClean ⟨5, Parsed.doc []⟩ = CleanResult.ok 5 "" ∧
    workerFlat ⟨5, Parsed.doc []⟩ = FlatResult.ok 5 [] :=
  c7_empty_selector_success 5

/-- C8 witness: the one-result-per-job property at a concrete job list. -/
theorem c8_witness :
    (workerRunClean [⟨0, Parsed.fail⟩, ⟨1, Parsed.doc []⟩]).length
        = ([⟨0, Parsed.fail⟩, ⟨1, Parsed.doc []⟩] : List JobC).length ∧
    (workerRunFlat [⟨0, Parsed.fail⟩, ⟨1, Parsed.doc []⟩]).length
        = ([⟨0, Parsed.fail⟩, ⟨1, Parsed.doc []⟩] : List JobC).length ∧
    (workerRunClean [⟨0, Parsed.fail⟩, ⟨1, Parsed.doc []⟩]).map cleanResIndex
        = ([⟨0, Parsed.fail⟩, ⟨1, Parsed.doc []⟩] : List JobC).map (fun j => j.index) ∧
    (workerRunFlat [⟨0, Parsed.fail⟩, ⟨1, Parsed.doc []⟩]).map flatResIndex
        = ([⟨0, Parsed.fail⟩, ⟨1, Parsed.doc []⟩] : List JobC).map (fun j => j.index) :=
  c8_one_result_per_job [⟨0, Parsed.fail⟩, ⟨1, Parsed.doc []⟩]

/-- C4 counterexample: a verb value row with one cell (cell count ≠ 2) is
not skipped — it yields a record. -/
theorem c4_counterexample :
    parseVerbForms [⟨[], ["a"]⟩] = ["a-"] ∧ parseVerbForms [⟨[], ["a"]⟩] ≠ [] := by
  decide

/-- C4 (amended): a noun value row is skipped unless it has exactly 2 cells
and an adjective value row unless it has exactly 1, but a verb value row is
skipped only when it has 0 cells. -/
theorem c4_arity_mismatch_skipped (pre : List Row) (ths tds : List String)
    (h : ths.length ≠ 1) :
    (tds.length ≠ 2 → parseSubstantiv (pre ++ [⟨ths, tds⟩]) = parseSubstantiv pre) ∧
    (tds.length ≠ 1 → parseAdjektiv (pre ++ [⟨ths, tds⟩]) = parseAdjektiv pre) ∧
    (tds.length = 0 → parseVerbForms (pre ++ [⟨ths, tds⟩]) = parseVerbForms pre) := by
  refine ⟨fun h2 => ?_, fun h2 => ?_, fun h2 => ?_⟩
  · rcases h' : pre.foldl subStep ("", []) with ⟨cur, acc⟩
    simp [parseSubstantiv, List.foldl_append, h', subStep, h, h2]
  · rcases h' : pre.foldl adjStep ("", []) with ⟨cur, acc⟩
    simp [parseAdjektiv, List.foldl_append, h', adjStep, h, h2]
  · rcases h' : pre.foldl verbStep ("", []) with ⟨cur, acc⟩
    simp [parseVerbForms, List.foldl_append, h', verbStep, h, h2]

theorem c4_witness :
    ([] : List String).length ≠ 1 ∧
    ((([] : List String).length ≠ 2 →
        parseSubstantiv ([] ++ [⟨[], []⟩]) = parseSubstantiv []) ∧
      (([] : List String).length ≠ 1 →
        parseAdjektiv ([] ++ [⟨[], []⟩]) = parseAdjektiv []) ∧
      (([] : List String).length = 0 →
        parseVerbForms ([] ++ [⟨[], []⟩]) = parseVerbForms [])) :=
  ⟨by decide, c4_arity_mismatch_skipped [] [] [] (by decide)⟩

/-- C5 counterexample: with header rows "Presens" and "Preteritum" the verb
record has no such form buckets at all — those labels are not in the fixed
recognized section set, so their rows' records are dropped. -/
theorem c5_counterexample :
    (buildVerbEntry (parseVerbForms presRows)).forms.lookup "Presens" = none ∧
    (buildVerbEntry (parseVerbForms presRows)).forms.lookup "Preteritum" = none ∧
    (buildVerbEntry (parseVerbForms presRows)).forms = emptyForms verbFormKeys := by
  decide

/-- C5 (amended): with header labels from the recognized verb section set —
"Finita former" followed by two value rows, then "Infinita former" followed
by one — the record's "Finita former" bucket has exactly the two values and
the "Infinita former" bucket exactly the one, in row order. -/
theorem c5_recognized_sections_grouped :
    (buildVerbEntry (parseVerbForms finitaRows)).forms.lookup "Finita former"
      = some ["a", "b"] ∧
    (buildVerbEntry (parseVerbForms finitaRows)).forms.lookup "Infinita former"
      = some ["c"] := by
  decide

/-- C6 counterexample: a noun value row with cells "a b" and "c d" records
"a b-c-", keeping the first cell's full trimmed text — not "a-c-", which a
composite of both cells' first whitespace-delimited tokens would give. -/
theorem c6_counterexample :
    parseSubstantiv [⟨[], ["a b", "c d"]⟩] = ["a b-c-"] ∧
    parseSubstantiv [⟨[], ["a b", "c d"]⟩] ≠ ["a-c-"] := by
  decide

/-- C6 (amended): for a 2-cell value row the composite value keeps the first
cell's full trimmed text; only the noun table's second cell is reduced to
its first whitespace-delimited token, while the verb table uses the second
cell's full trimmed text. -/
theorem c6_two_cell_value (pre : List Row) (ths : List String) (t1 t2 : String)
    (h : ths.length ≠ 1) :
    parseSubstantiv (pre ++ [⟨ths, [t1, t2]⟩]) =
      parseSubstantiv pre ++
        [goTrimSpace t1 ++ "-" ++ (goFields (goTrimSpace t2)).headD "" ++ "-" ++ subCaseAfter pre] ∧
    parseVerbForms (pre ++ [⟨ths, [t1, t2]⟩]) =
      parseVerbForms pre ++
        [(if goTrimSpace t2 ≠ "" then goTrimSpace t1 ++ "-" ++ goTrimSpace t2
            else goTrimSpace t1) ++ "-" ++ verbSectionAfter pre] := by
  constructor
  · rcases h' : pre.foldl subStep ("", []) with ⟨cur, acc⟩
    simp [parseSubstantiv, subCaseAfter, List.foldl_append, h', subStep, h]
  · rcases h' : pre.foldl verbStep ("", []) with ⟨cur, acc⟩
    simp [parseVerbForms, verbSectionAfter, List.foldl_append, h', verbStep, h]

theorem c6_witness :
    ([] : List String).length ≠ 1 ∧
    (parseSubstantiv ([] ++ [⟨[], ["a b", "c d"]⟩]) =
      parseSubstantiv [] ++
        [goTrimSpace "a b" ++ "-" ++ (goFields (goTrimSpace "c d")).headD "" ++ "-" ++
          subCaseAfter []] ∧
    parseVerbForms ([] ++ [⟨[], ["a b", "c d"]⟩]) =
      parseVerbForms [] ++
        [(if goTrimSpace "c d" ≠ "" then goTrimSpace "a b" ++ "-" ++ goTrimSpace "c d"
            else goTrimSpace "a b") ++ "-" ++ verbSectionAfter []]) :=
  ⟨by decide, c6_two_cell_value [] [] "a b" "c d" (by decide)⟩

/-- C10 counterexample: for the cell text "x + y" the recorded entry is
"x-" — the truncated value is trimmed again before tagging — not "x -",
which the trimmed cell text truncated at the first '+' would give. -/
theorem c10_counterexample :
    parseAdjektiv [⟨[], ["x + y"]⟩] = ["x-"] ∧
    parseAdjektiv [⟨[], ["x + y"]⟩] ≠ ["x -"] := by
  decide

/-- C10 (amended): for a 1-cell adjective value row the recorded form value
is the trimmed cell text truncated at the first '+' and trimmed again, so
everything from the first '+' onward (and the whitespace before it) is
silently discarded before the value is tagged with the current degree. -/
theorem c10_adj_plus_truncation (pre : List Row) (ths : List String) (t : String)
    (h : ths.length ≠ 1) :
    parseAdjektiv (pre ++ [⟨ths, [t]⟩]) =
      parseAdjektiv pre ++
        [goTrimSpace (goBeforeFirst '+' (goTrimSpace t)) ++ "-" ++ adjDegreeAfter pre] := by
  rcases h' : pre.foldl adjStep ("", []) with ⟨cur, acc⟩
  simp [parseAdjektiv, adjDegreeAfter, List.foldl_append, h', adjStep, h]

theorem c10_witness :
    ([] : List String).length ≠ 1 ∧
    parseAdjektiv ([] ++ [⟨[], [" stor + are "]⟩]) =
      parseAdjektiv [] ++
        [goTrimSpace (goBeforeFirst '+' (goTrimSpace " stor + are ")) ++ "-" ++
          adjDegreeAfter []] :=
  ⟨by decide, c10_adj_plus_truncation [] [] " stor + are " (by decide)⟩

theorem updForms_keys (fs : List (String × List String)) (sec fv : String) :
    (updForms fs sec fv).map Prod.fst = fs.map Prod.fst := by
  simp only [updForms, List.map_map]
  refine List.map_congr_left (fun p _ => ?_)
  by_cases h : p.1 = sec <;> simp [h]

theorem foldTagged_keys (raw : List String) (init : List (String × List String)) :
    (foldTagged init raw).map Prod.fst = init.map Prod.fst := by
  induction raw generalizing init with
  | nil => rfl
  | cons t ts ih =>
    simp only [foldTagged, List.foldl_cons]
    cases h : goSplitLastDash t with
    | none =>
      simpa [foldTagged, h] using ih init
    | some pr =>
      calc (List.foldl (fun fs tagged =>
              match goSplitLastDash tagged with
              | none => fs
              | some (fv, sec) => updForms fs sec fv) (updForms init pr.2 pr.1) ts).map Prod.fst
          = (updForms init pr.2 pr.1).map Prod.fst := by
            have := ih (updForms init pr.2 pr.1)
            simpa [foldTagged, h] using this
        _ = init.map Prod.fst := updForms_keys _ _ _

theorem emptyForms_keys (keys : List String) :
    (emptyForms keys).map Prod.fst = keys := by
  simp [emptyForms, List.map_map, Function.comp_def]

/-- C9 counterexample: a substantiv input document produces no output file
and no record of its class — the stage writes only `adjectives.json` and
`verbs.json`, so there is no category-output file per grammatical class in
the four-class recognized set. -/
theorem c9_counterexample :
    (categoryStage [⟨["substantiv"], [⟨[], ["a", "b"]⟩]⟩]).map Prod.fst
      = ["adjectives.json", "verbs.json"] ∧
    ∀ p ∈ categoryStage [⟨["substantiv"], [⟨[], ["a", "b"]⟩]⟩],
      ∀ r ∈ p.2, r.cls ≠ "substantiv" := by
  decide

/-- C9 (amended): every run of the category stage writes exactly two files,
`adjectives.json` and `verbs.json`; every record written conforms to the
fixed schema, with class "adjektiv" and the fixed degree label set or class
"verb" and the fixed section label set.  Substantiv records are computed
but never written; adverb entries pass the filter but are never recorded. -/
theorem c9_two_files_fixed_schema (docs : List LemmaDoc) :
    (categoryStage docs).map Prod.fst = ["adjectives.json", "verbs.json"] ∧
    ∀ p ∈ categoryStage docs, ∀ r ∈ p.2,
      (r.cls = "adjektiv" ∧ r.forms.map Prod.fst = adjFormKeys) ∨
      (r.cls = "verb" ∧ r.forms.map Prod.fst = verbFormKeys) := by
  refine ⟨rfl, ?_⟩
  intro p hp r hr
  simp only [categoryStage, List.mem_cons, List.not_mem_nil, or_false] at hp
  rcases hp with h | h <;> subst h <;>
    simp only [saveAdjectivesJSON, saveVerbsJSON, List.mem_map] at hr
  · obtain ⟨raw, _, rfl⟩ := hr
    exact Or.inl ⟨rfl, (foldTagged_keys raw _).trans (emptyForms_keys adjFormKeys)⟩
  · obtain ⟨raw, _, rfl⟩ := hr
    exact Or.inr ⟨rfl, (foldTagged_keys raw _).trans (emptyForms_keys verbFormKeys)⟩

theorem c9_witness :
    (c9File ∈ categoryStage c9Docs) ∧
    (buildVerbEntry (parseVerbForms []) ∈ c9File.2) ∧
    (((buildVerbEntry (parseVerbForms [])).cls = "adjektiv" ∧
        (buildVerbEntry (parseVerbForms [])).forms.map Prod.fst = adjFormKeys) ∨
      ((buildVerbEntry (parseVerbForms [])).cls = "verb" ∧
        (buildVerbEntry (parseVerbForms [])).forms.map Prod.fst = verbFormKeys)) :=
  ⟨by decide, by decide,
    (c9_two_files_fixed_schema c9Docs).2 c9File (by decide)
      (buildVerbEntry (parseVerbForms [])) (by decide)⟩

theorem entriesFor_map_key (f : Nat) (ls : List String) :
    ∀ k, (entriesFor k f ls).map LemmaOut.key = List.range' k ls.length := by
  induction ls with
  | nil => intro k; rfl
  | cons h t ih => intro k; simp [entriesFor, List.range'_succ, ih]

theorem entriesFor_length (f : Nat) (ls : List String) :
    ∀ k, (entriesFor k f ls).length = ls.length := by
  induction ls with
  | nil => intro k; rfl
  | cons h t ih => intro k; simp [entriesFor, ih]

theorem entriesFor_map_familyID (f : Nat) (ls : List String) :
    ∀ k, (entriesFor k f ls).map LemmaOut.familyID = List.replicate ls.length f := by
  induction ls with
  | nil => intro k; rfl
  | cons h t ih => intro k; simp [entriesFor, ih, List.replicate_succ]

theorem assembleFrom_map_key (rs : List Res0) :
    ∀ k, (assembleFrom k rs).map LemmaOut.key
      = List.range' k (assembleFrom k rs).length := by
  induction rs with
  | nil => intro k; rfl
  | cons r rest ih =>
    intro k
    simp only [assembleFrom, List.map_append, List.length_append,
      entriesFor_map_key, entriesFor_length, ih]
    rw [Nat.add_comm r.lemmas.length ((assembleFrom (k + r.lemmas.length) rest).length)]
    exact List.range'_append_1 k r.lemmas.length _

theorem assembleFrom_map_familyID (rs : List Res0) :
    ∀ k, (assembleFrom k rs).map LemmaOut.familyID
      = rs.flatMap (fun r => List.replicate r.lemmas.length (r.index + 1)) := by
  induction rs with
  | nil => intro k; rfl
  | cons r rest ih =>
    intro k
    simp [assembleFrom, entriesFor_map_familyID, ih, List.flatMap_cons]

theorem flatMap_replicate_pairwise (rs : List Res0)
    (h : rs.Pairwise (fun a b => a.index ≤ b.index)) :
    (rs.flatMap (fun r => List.replicate r.lemmas.length (r.index + 1))).Pairwise
      (fun a b => a ≤ b) := by
  induction rs with
  | nil => simp
  | cons r rest ih =>
    rw [List.flatMap_cons, List.pairwise_append]
    rcases List.pairwise_cons.mp h with ⟨hr, ht⟩
    refine ⟨?_, ih ht, ?_⟩
    · simp [List.pairwise_replicate]
    · intro x hx y hy
      have hxe := List.eq_of_mem_replicate hx
      rcases List.mem_flatMap.mp hy with ⟨r', hr', hy'⟩
      have hye := List.eq_of_mem_replicate hy'
      subst hxe; subst hye
      exact Nat.succ_le_succ (hr r' hr')

theorem reconcile_sorted (rs : List Res0) :
    (reconcile rs).Pairwise (fun a b => a.index ≤ b.index) :=
  List.sorted_insertionSort _ rs

theorem reconcile_perm (rs : List Res0) : (reconcile rs).Perm rs :=
  List.perm_insertionSort _ rs

theorem reconcile_strict (rs : List Res0) (h : (rs.map Res0.index).Nodup) :
    (reconcile rs).Pairwise (fun a b => a.index < b.index) := by
  have hs := reconcile_sorted rs
  have hnd : ((reconcile rs).map Res0.index).Nodup :=
    ((reconcile_perm rs).map Res0.index).nodup_iff.mpr h
  have hne : (reconcile rs).Pairwise (fun a b => a.index ≠ b.index) :=
    List.pairwise_map.mp hnd
  exact (hs.and hne).imp (fun hab => Nat.lt_of_le_of_ne hab.1 hab.2)

theorem reconcile_perm_eq (l₁ l₂ : List Res0) (hp : l₁.Perm l₂)
    (hnd : (l₂.map Res0.index).Nodup) : reconcile l₁ = reconcile l₂ := by
  have hp' : (reconcile l₁).Perm (reconcile l₂) :=
    (reconcile_perm l₁).trans (hp.trans (reconcile_perm l₂).symm)
  have hnd₁ : (l₁.map Res0.index).Nodup := (hp.map Res0.index).nodup_iff.mpr hnd
  exact List.eq_of_perm_of_sorted hp' (reconcile_strict l₁ hnd₁) (reconcile_strict l₂ hnd)

/-- C1 (amended): for any set of successful results with pairwise distinct
original indices and any worker completion order, the final structure is
the same; its sequential keys are dense and 1-based; its familyID sequence
is exactly the reconciled documents' indices plus one, each repeated once
per contributed lemma, in increasing index order — so familyID values are
non-decreasing in the sequential key (strictly increasing only across
entries of distinct documents), matching the original input order. -/
theorem c1_order_reconstruction (rs rs' : List WResult)
    (hperm : rs'.Perm rs)
    (hnodup : ((collect rs).map Res0.index).Nodup) :
    finalOutput rs' = finalOutput rs ∧
    (finalOutput rs).map LemmaOut.key = List.range' 1 (finalOutput rs).length ∧
    (finalOutput rs).map LemmaOut.familyID
      = (reconcile (collect rs)).flatMap
          (fun r => List.replicate r.lemmas.length (r.index + 1)) ∧
    (finalOutput rs).Pairwise (fun a b => a.familyID ≤ b.familyID) := by
  refine ⟨?_, assembleFrom_map_key _ 1, assembleFrom_map_familyID _ 1, ?_⟩
  · unfold finalOutput
    rw [reconcile_perm_eq (collect rs') (collect rs) (hperm.filterMap _) hnodup]
  · have h1 : ((finalOutput rs).map LemmaOut.familyID).Pairwise (fun a b => a ≤ b) := by
      have he : (finalOutput rs).map LemmaOut.familyID
          = (reconcile (collect rs)).flatMap
              (fun r => List.replicate r.lemmas.length (r.index + 1)) :=
        assembleFrom_map_familyID _ 1
      rw [he]
      exact flatMap_replicate_pairwise _ (reconcile_sorted _)
    exact List.pairwise_map.mp h1

theorem c1_witness :
    c1rs'.Perm c1rs ∧
    ((collect c1rs).map Res0.index).Nodup ∧
    (finalOutput c1rs' = finalOutput c1rs ∧
      (finalOutput c1rs).map LemmaOut.key = List.range' 1 (finalOutput c1rs).length ∧
      (finalOutput c1rs).map LemmaOut.familyID
        = (reconcile (collect c1rs)).flatMap
            (fun r => List.replicate r.lemmas.length (r.index + 1)) ∧
      (finalOutput c1rs).Pairwise (fun a b => a.familyID ≤ b.familyID)) :=
  ⟨by decide, by decide, c1_order_reconstruction c1rs c1rs' (by decide) (by decide)⟩

/-- C1 counterexample: one document (original index 0) contributing two
lemmas yields entries with sequential keys 1 and 2 both carrying familyID 1,
so the familyID values are not strictly increasing in the sequential key. -/
theorem c1_counterexample :
    finalOutput [WResult.ok ⟨0, ["a", "b"]⟩]
      = [⟨1, "a", 1⟩, ⟨2, "b", 1⟩] ∧
    ¬ (finalOutput [WResult.ok ⟨0, ["a", "b"]⟩]).Pairwise
        (fun a b => a.familyID < b.familyID) := by
  decide

end Saol
